import Mathlib

/-!
Shallow embedding of the checkers engine from `src/main.rs`
(`rusty-checkers`).  Pure data and the rule/turn logic are translated
directly; terminal rendering, the notation regex parser and `println!`
side effects are external I/O glue and are omitted.  `make_move` below
models `Game::make_move` from the point where the move description has
already been parsed into a `Move` (the parser is an external interface).
Rust panics (`assert!`, slice indexing, `unwrap`, `expect`,
`unimplemented!`) are modelled as distinguished `Except.error` values.
-/

deriving instance DecidableEq for Except

/-- Mirrors `enum Player`. -/
inductive Player where
  | White
  | Black
  deriving DecidableEq

/-- Mirrors `enum Tile`. -/
inductive Tile where
  | Empty
  | White
  | Black
  | BlackKing
  | WhiteKing
  deriving DecidableEq

/-- Mirrors `enum Direction`. -/
inductive Direction where
  | NW
  | NE
  | SE
  | SW
  deriving DecidableEq

/-- Mirrors `fn get_enemy`. -/
def get_enemy : Player → Player
  | .White => .Black
  | .Black => .White

/-- Mirrors `fn get_tile_owner`. -/
def get_tile_owner : Tile → Option Player
  | .Black | .BlackKing => some .Black
  | .White | .WhiteKing => some .White
  | .Empty => none

/-- Mirrors `struct Index { orientation, x, y }` (fields are `usize`,
modelled as `Nat`). -/
structure Index where
  orientation : Player
  x : Nat
  y : Nat
  deriving DecidableEq

/-- Mirrors `Index::translate`: `usize::try_from` of a signed sum fails
exactly when the sum is negative. -/
def Index.translate (i : Index) (dx dy : Int) : Option Index :=
  if (i.x : Int) + dx < 0 ∨ (i.y : Int) + dy < 0 then none
  else some ⟨i.orientation, ((i.x : Int) + dx).toNat, ((i.y : Int) + dy).toNat⟩

/-- Mirrors `struct Board { height, width, tiles }`; the boxed slice is a
list. -/
structure Board where
  height : Nat
  width : Nat
  tiles : List Tile
  deriving DecidableEq

/-- Models the message of `panic!(...)` raised by a failed `assert!`. -/
def assert_fail_msg : String := "assertion failed"

/-- Models the message of the panic raised by an out-of-range slice index. -/
def index_oob_msg : String := "index out of bounds"

/-- Models the message of the panic raised by `Option::unwrap` /
`Result::unwrap` on a missing value. -/
def unwrap_fail_msg : String := "called unwrap on a missing value"

/-- Models the message of the `unimplemented!()` panic. -/
def unimplemented_msg : String := "not implemented"

/-- Mirrors `const INTERNAL_ERROR_MESSAGE` (apostrophe dropped from the
original text "shouldn't"). -/
def INTERNAL_ERROR_MESSAGE : String := "Internal error, should not get here. Oooops..."

/-- Mirrors `Board::validate_index`. -/
def Board.validate_index (b : Board) (i : Index) : Bool :=
  decide (i.x < b.width ∧ i.y < b.height)

/-- Mirrors `Board::reverse_index`. -/
def Board.reverse_index (b : Board) (i : Index) : Index :=
  ⟨get_enemy i.orientation, b.width - i.x - 1, b.height - i.y - 1⟩

/-- Mirrors `Board::get_tile_white`: the `assert!` on orientation and the
out-of-range slice access are modelled as panic errors. -/
def Board.get_tile_white (b : Board) (i : Index) : Except String Tile :=
  if i.orientation ≠ .White then .error assert_fail_msg
  else if !b.validate_index i then .error "Index outside of board"
  else match b.tiles.get? (i.x + i.y * b.width) with
    | some t => .ok t
    | none => .error index_oob_msg

/-- Mirrors `Board::set_tile_white` (returns the updated board in place of
`&mut self`). -/
def Board.set_tile_white (b : Board) (i : Index) (tile : Tile) : Except String Board :=
  if i.orientation ≠ .White then .error assert_fail_msg
  else if !b.validate_index i then .error "Index outside of board"
  else if i.x + i.y * b.width < b.tiles.length then
    .ok ⟨b.height, b.width, b.tiles.set (i.x + i.y * b.width) tile⟩
  else .error index_oob_msg

/-- Mirrors `Board::get_tile_black`. -/
def Board.get_tile_black (b : Board) (i : Index) : Except String Tile :=
  if i.orientation ≠ .Black then .error assert_fail_msg
  else if !b.validate_index i then .error "Index outside of board"
  else b.get_tile_white (b.reverse_index i)

/-- Mirrors `Board::set_tile_black`. -/
def Board.set_tile_black (b : Board) (i : Index) (tile : Tile) : Except String Board :=
  if i.orientation ≠ .Black then .error assert_fail_msg
  else if !b.validate_index i then .error "Index outside of board"
  else b.set_tile_white (b.reverse_index i) tile

/-- Mirrors `Board::get_tile`. -/
def Board.get_tile (b : Board) (i : Index) : Except String Tile :=
  match i.orientation with
  | .White => b.get_tile_white i
  | .Black => b.get_tile_black i

/-- Mirrors `Board::set_tile`. -/
def Board.set_tile (b : Board) (i : Index) (tile : Tile) : Except String Board :=
  match i.orientation with
  | .White => b.set_tile_white i tile
  | .Black => b.set_tile_black i tile

/-- Mirrors `Board::get_tile_owner_at`. -/
def Board.get_tile_owner_at (b : Board) (i : Index) : Except String (Option Player) :=
  match b.get_tile i with
  | .ok .White | .ok .WhiteKing => .ok (some .White)
  | .ok .Black | .ok .BlackKing => .ok (some .Black)
  | .ok .Empty => .ok none
  | .error msg => .error msg

/-- The tile the construction loop of `Board::new` leaves in cell `(x, y)`:
the two middle rows are skipped, dark squares (`(x + y) % 2 == 1`) get the
`top_tile` (`Black`) in the top half and the `bottom_tile` (`White`) in the
bottom half, and every other cell keeps the initial `Tile::Empty`.  Each
cell is written at most once by the loop, so the loop is equivalent to this
per-cell value. -/
def init_tile (height x y : Nat) : Tile :=
  if y = height / 2 ∨ y = height / 2 - 1 then .Empty
  else if (x + y) % 2 = 1 then
    (if y < height / 2 then .Black else .White)
  else .Empty

/-- Mirrors `Board::new` (row-major storage `x + y * width`; cell `i` of
the slice holds the tile for `(i % width, i / width)`).  The `assert!` that
`height` is even guards construction in Rust; theorems about `Board.new`
carry the evenness hypothesis instead. -/
def Board.new (height width : Nat) : Board :=
  { height := height, width := width,
    tiles := (List.range (height * width)).map
      (fun i => init_tile height (i % width) (i / width)) }

/-- Mirrors `enum GameState`. -/
inductive GameState where
  | Turn (p : Player)
  | Won (p : Player)
  deriving DecidableEq

/-- Mirrors `struct Game`. -/
structure Game where
  board : Board
  state : GameState
  deriving DecidableEq

/-- Mirrors `struct Move`. -/
structure Move where
  source : Index
  target : Index
  deriving DecidableEq

/-- Mirrors `enum MoveType`. -/
inductive MoveType where
  | Move (index : Index)
  | Capture (target_index : Index) (captured_index : Index)
  | MultiCapture (indices : List Index)
  | KingMove (index : Index)
  | KingCapture (target_index : Index) (captured_index : Index)
  | KingMultiCapture (indices : List Index)
  deriving DecidableEq

/-- Mirrors `struct AvailableMove`. -/
structure AvailableMove where
  source : Index
  move_type : MoveType
  deriving DecidableEq

/-- The two-step target index of `Game::check_capture_move` (the inline
`match direction` over `source.translate(±2, ±2)`). -/
def capture_target_index (source : Index) (direction : Direction) : Option Index :=
  match direction with
  | .NW => source.translate (-2) (-2)
  | .NE => source.translate 2 (-2)
  | .SE => source.translate 2 2
  | .SW => source.translate (-2) 2

/-- The one-step captured index of `Game::check_capture_move` (the inline
`match direction` over `source.translate(±1, ±1)`). -/
def capture_captured_index (source : Index) (direction : Direction) : Option Index :=
  match direction with
  | .NW => source.translate (-1) (-1)
  | .NE => source.translate 1 (-1)
  | .SE => source.translate 1 1
  | .SW => source.translate (-1) 1

/-- Mirrors `Game::check_capture_move`; the two `.unwrap()` calls on the
captured index and the captured tile are modelled as `unwrap_fail_msg`
panic errors. -/
def Game.check_capture_move (g : Game) (source : Index) (direction : Direction) :
    Except String AvailableMove :=
  match g.board.get_tile source with
  | .error msg => .error msg
  | .ok source_tile =>
    match get_tile_owner source_tile with
    | none => .error "Source tile is empty"
    | some player =>
      let enemy_player := get_enemy player
      match capture_target_index source direction with
      | none => .error "Target tile is outside of the board"
      | some target_index =>
        match g.board.get_tile target_index with
        | .error msg => .error msg
        | .ok target_tile =>
          if target_tile ≠ .Empty then .error "Target tile is not empty"
          else
            match capture_captured_index source direction with
            | none => .error unwrap_fail_msg
            | some captured_index =>
              match g.board.get_tile captured_index with
              | .error _ => .error unwrap_fail_msg
              | .ok captured_tile =>
                if get_tile_owner captured_tile ≠ some enemy_player then
                  .error "Tile to be captured does not belong to enemy"
                else .ok ⟨source, .Capture target_index captured_index⟩

/-- One diagonal-move push of `Game::get_allowed_moves_for`: the
`if let Some(diagonal) = source.translate(dx, dy)` block that pushes a
simple `Move` when the diagonal is on the board and `Empty`. -/
def man_move_candidate (g : Game) (source : Index) (dx dy : Int) :
    List AvailableMove :=
  match source.translate dx dy with
  | some diagonal =>
    if g.board.get_tile diagonal = .ok .Empty then [⟨source, .Move diagonal⟩]
    else []
  | none => []

/-- One capture push of `Game::get_allowed_moves_for`: the
`if let Ok(available_move) = self.check_capture_move(source, direction)`
block. -/
def capture_candidate (g : Game) (source : Index) (direction : Direction) :
    List AvailableMove :=
  match g.check_capture_move source direction with
  | .ok available_move => [available_move]
  | .error _ => []

/-- Mirrors `Game::get_allowed_moves_for`: the two forward diagonal simple
moves, then the four capture checks in source order NE, NW, SE, SW; the
king branch of the `match` is all TODO comments in the source and yields
the empty vector; the unreachable `Empty` arm models
`panic!(INTERNAL_ERROR_MESSAGE)`. -/
def Game.get_allowed_moves_for (g : Game) (source : Index) :
    Except String (List AvailableMove) :=
  match g.board.get_tile source with
  | .error msg => .error msg
  | .ok pawn =>
    if pawn = .Empty then .error "Source is an empty tile"
    else
      match pawn with
      | .White | .Black =>
        .ok (man_move_candidate g source (-1) (-1) ++
          man_move_candidate g source 1 (-1) ++
          capture_candidate g source .NE ++ capture_candidate g source .NW ++
          capture_candidate g source .SE ++ capture_candidate g source .SW)
      | .WhiteKing | .BlackKing => .ok []
      | .Empty => .error INTERNAL_ERROR_MESSAGE

/-- Mirrors `Game::find_move_in_available`: multi-capture variants are
filtered out, then the first remaining move whose target equals the
requested target is returned. -/
def Game.find_move_in_available (available_moves : List AvailableMove)
    (game_move : Move) : Option AvailableMove :=
  let available_targets := available_moves.filter (fun x =>
    match x.move_type with
    | .MultiCapture _ => false
    | .KingMultiCapture _ => false
    | _ => true)
  available_targets.find? (fun x =>
    match x.move_type with
    | .Move index => decide (index = game_move.target)
    | .Capture target_index _ => decide (target_index = game_move.target)
    | .KingMove index => decide (index = game_move.target)
    | .KingCapture target_index _ => decide (target_index = game_move.target)
    | .KingMultiCapture _ => false
    | .MultiCapture _ => false)

/-- Mirrors `Game::check_move`. -/
def Game.check_move (g : Game) (game_move : Move) : Except String AvailableMove :=
  match g.state with
  | .Won _ => .error "The game is already finished"
  | .Turn _ =>
    match g.get_allowed_moves_for game_move.source with
    | .error msg => .error msg
    | .ok available_moves =>
      match Game.find_move_in_available available_moves game_move with
      | some game_move => .ok game_move
      | none => .error "Illegal move"

/-- Mirrors `Game::change_turn`; `none` models the `panic!` on a finished
game. -/
def Game.change_turn (g : Game) : Option Game :=
  match g.state with
  | .Won _ => none
  | .Turn player => some ⟨g.board, .Turn (get_enemy player)⟩

/-- Mirrors `Game::make_move` from the point after
`parse_move_description` (the notation parser is an external interface):
state check, move validation, source fetch, source clear, target write,
captured-tile clears, turn change.  The result pairs the Rust
`Result<(), &str>` with the final state of `&mut self`; the
`.expect(INTERNAL_ERROR_MESSAGE)` and `unimplemented!()` panics are
modelled as errors carrying the board mutated so far. -/
def Game.make_move (g : Game) (board_move : Move) : Except String Unit × Game :=
  match g.state with
  | .Won _ => (.error "You can not make a move, the game has already ended", g)
  | .Turn _ =>
    match g.check_move board_move with
    | .error msg => (.error msg, g)
    | .ok game_move =>
      match g.board.get_tile game_move.source with
      | .error msg => (.error msg, g)
      | .ok pawn =>
        match g.board.set_tile board_move.source .Empty with
        | .error _ => (.error INTERNAL_ERROR_MESSAGE, g)
        | .ok b1 =>
          match b1.set_tile board_move.target pawn with
          | .error _ => (.error INTERNAL_ERROR_MESSAGE, ⟨b1, g.state⟩)
          | .ok b2 =>
            match game_move.move_type with
            | .Move _ | .KingMove _ =>
              match Game.change_turn ⟨b2, g.state⟩ with
              | none => (.error "The game has already ended!", ⟨b2, g.state⟩)
              | some g2 => (.ok (), g2)
            | .Capture _ captured_index =>
              match b2.set_tile captured_index .Empty with
              | .error _ => (.error INTERNAL_ERROR_MESSAGE, ⟨b2, g.state⟩)
              | .ok b3 =>
                match Game.change_turn ⟨b3, g.state⟩ with
                | none => (.error "The game has already ended!", ⟨b3, g.state⟩)
                | some g2 => (.ok (), g2)
            | _ => (.error unimplemented_msg, ⟨b2, g.state⟩)

/-- Mirrors `Game::new` (10 by 10 board, White to move). -/
def Game.new : Game :=
  { board := Board.new 10 10, state := .Turn .White }

/-- Absolute position in the storage slice addressed by an oriented index:
White-tagged indices address `x + y * width` directly, Black-tagged indices
address the cell of their one-step reversal.  Proof-layer helper. -/
def Board.cell_pos (b : Board) (i : Index) : Nat :=
  match i.orientation with
  | .White => i.x + i.y * b.width
  | .Black => (b.width - i.x - 1) + (b.height - i.y - 1) * b.width

/-- A 4 by 4 board with a single White man at White-oriented `(1, 2)` and a
single Black man at `(2, 1)`, so that White can capture to `(3, 0)`. -/
def demo_board : Board :=
  ⟨4, 4,
    [Tile.Empty, .Empty, .Empty, .Empty,
     .Empty, .Empty, .Black, .Empty,
     .Empty, .White, .Empty, .Empty,
     .Empty, .Empty, .Empty, .Empty]⟩

/-- Game on `demo_board`, White to move. -/
def demo_game : Game := ⟨demo_board, .Turn .White⟩

/-- The White capture request from `(1, 2)` over `(2, 1)` to `(3, 0)`. -/
def demo_move : Move := ⟨⟨.White, 1, 2⟩, ⟨.White, 3, 0⟩⟩

/-- The game expected after playing `demo_move` in `demo_game`. -/
def demo_after : Game :=
  ⟨⟨4, 4,
    [Tile.Empty, .Empty, .Empty, .White,
     .Empty, .Empty, .Empty, .Empty,
     .Empty, .Empty, .Empty, .Empty,
     .Empty, .Empty, .Empty, .Empty]⟩, .Turn .Black⟩

/-- A 4 by 4 board whose only piece is a White king at `(1, 2)`. -/
def king_board : Board :=
  ⟨4, 4,
    [Tile.Empty, .Empty, .Empty, .Empty,
     .Empty, .Empty, .Empty, .Empty,
     .Empty, .WhiteKing, .Empty, .Empty,
     .Empty, .Empty, .Empty, .Empty]⟩

/-- Game on `king_board`, White to move. -/
def king_game : Game := ⟨king_board, .Turn .White⟩

/-- Game on `demo_board` already won by White. -/
def won_game : Game := ⟨demo_board, .Won .White⟩

/-- A request from the White man at `(1, 2)` to the non-reachable `(0, 0)`. -/
def illegal_request : Move := ⟨⟨.White, 1, 2⟩, ⟨.White, 0, 0⟩⟩

/-- The legal-move list of `demo_game` from `(1, 2)`: the left diagonal
simple move and the NE capture. -/
def demo_avail : List AvailableMove :=
  [⟨⟨.White, 1, 2⟩, .Move ⟨.White, 0, 1⟩⟩,
   ⟨⟨.White, 1, 2⟩, .Capture ⟨.White, 3, 0⟩ ⟨.White, 2, 1⟩⟩]

/-- Claim C1: reversing an in-bounds index twice with the board reversal
restores the original coordinates and orientation tag. -/
theorem reverse_index_involutive (b : Board) (i : Index)
    (hx : i.x < b.width) (hy : i.y < b.height) :
    b.reverse_index (b.reverse_index i) = i := by
  obtain ⟨o, x, y⟩ := i
  have hx2 : x < b.width := hx
  have hy2 : y < b.height := hy
  cases o <;> simp [Board.reverse_index, get_enemy] <;> omega

/-- Witness for C1 at a concrete in-bounds index of a 4 by 4 board. -/
theorem reverse_index_involutive_witness :
    (1 : Nat) < (Board.new 4 4).width ∧ (2 : Nat) < (Board.new 4 4).height ∧
      (Board.new 4 4).reverse_index ((Board.new 4 4).reverse_index ⟨.White, 1, 2⟩) =
        ⟨.White, 1, 2⟩ := by
  refine ⟨by decide, by decide, reverse_index_involutive (Board.new 4 4) ⟨.White, 1, 2⟩ (by decide) (by decide)⟩

/-- `translate` succeeds exactly when neither shifted coordinate is
negative, and then shifts both coordinates while keeping the orientation. -/
theorem translate_eq_some (i : Index) (dx dy : Int) (j : Index) :
    i.translate dx dy = some j ↔
      0 ≤ (i.x : Int) + dx ∧ 0 ≤ (i.y : Int) + dy ∧
        j.orientation = i.orientation ∧ (j.x : Int) = (i.x : Int) + dx ∧
        (j.y : Int) = (i.y : Int) + dy := by
  constructor
  · intro h
    simp only [Index.translate] at h
    split at h
    · simp at h
    · rename_i hc
      rw [Option.some_inj] at h
      subst h
      push_neg at hc
      refine ⟨hc.1, hc.2, rfl, ?_, ?_⟩ <;> simp <;> omega
  · rintro ⟨h1, h2, h3, h4, h5⟩
    simp only [Index.translate]
    split
    · rename_i hc; omega
    · rw [Option.some_inj]
      obtain ⟨o2, x2, y2⟩ := j
      have h4b : (x2 : Int) = (i.x : Int) + dx := h4
      have h5b : (y2 : Int) = (i.y : Int) + dy := h5
      have h3b : o2 = i.orientation := h3
      simp only [Index.mk.injEq]
      refine ⟨h3b.symm, by omega, by omega⟩

/-- Unfolds the boolean bounds check. -/
theorem validate_index_iff (b : Board) (i : Index) :
    b.validate_index i = true ↔ (i.x < b.width ∧ i.y < b.height) := by
  simp [Board.validate_index]

/-- Row-major positions of in-bounds cells are within the grid size. -/
theorem rowmajor_lt (w hgt x y : Nat) (hx : x < w) (hy : y < hgt) :
    x + y * w < hgt * w := by
  have h1 : (y + 1) * w ≤ hgt * w := Nat.mul_le_mul_right _ (by omega)
  have h2 : x + y * w < (y + 1) * w := by rw [Nat.succ_mul]; omega
  omega

/-- Row-major positions determine the coordinates. -/
theorem rowmajor_inj (w x1 y1 x2 y2 : Nat) (hx1 : x1 < w) (hx2 : x2 < w)
    (h : x1 + y1 * w = x2 + y2 * w) : x1 = x2 ∧ y1 = y2 := by
  have hm : (x1 + y1 * w) % w = (x2 + y2 * w) % w := by rw [h]
  rw [Nat.add_mul_mod_self_right, Nat.add_mul_mod_self_right,
    Nat.mod_eq_of_lt hx1, Nat.mod_eq_of_lt hx2] at hm
  subst hm
  refine ⟨rfl, ?_⟩
  have hw : 0 < w := by omega
  have h2 : y1 * w = y2 * w := by omega
  exact Nat.eq_of_mul_eq_mul_right hw h2

/-- The storage position of an in-bounds index is inside the slice bounds
given the length invariant of `Board::new`. -/
theorem cell_pos_lt (b : Board) (i : Index) (hv : b.validate_index i = true) :
    b.cell_pos i < b.height * b.width := by
  rw [validate_index_iff] at hv
  obtain ⟨o, x, y⟩ := i
  have h1 : x < b.width := hv.1
  have h2 : y < b.height := hv.2
  cases o
  · exact rowmajor_lt _ _ _ _ h1 h2
  · exact rowmajor_lt _ _ _ _ (by omega) (by omega)

/-- Two in-bounds indices in the same orientation with the same storage
position are equal. -/
theorem cell_pos_inj (b : Board) (i j : Index) (hvi : b.validate_index i = true)
    (hvj : b.validate_index j = true) (ho : i.orientation = j.orientation)
    (h : b.cell_pos i = b.cell_pos j) : i = j := by
  rw [validate_index_iff] at hvi hvj
  obtain ⟨oi, xi, yi⟩ := i
  obtain ⟨oj, xj, yj⟩ := j
  have hxi : xi < b.width := hvi.1
  have hyi : yi < b.height := hvi.2
  have hxj : xj < b.width := hvj.1
  have hyj : yj < b.height := hvj.2
  have ho2 : oi = oj := ho
  subst ho2
  cases oi
  · have h2 : xi + yi * b.width = xj + yj * b.width := h
    obtain ⟨hx, hy⟩ := rowmajor_inj _ _ _ _ _ hxi hxj h2
    simp [hx, hy]
  · have h2 : (b.width - xi - 1) + (b.height - yi - 1) * b.width =
        (b.width - xj - 1) + (b.height - yj - 1) * b.width := h
    obtain ⟨hx, hy⟩ := rowmajor_inj _ _ _ _ _ (by omega) (by omega) h2
    have hx2 : xi = xj := by omega
    have hy2 : yi = yj := by omega
    simp [hx2, hy2]

/-- `get_tile` succeeds exactly on validated indices whose storage cell
exists, and returns that cell. -/
theorem get_tile_ok_iff (b : Board) (i : Index) (t : Tile) :
    b.get_tile i = .ok t ↔
      b.validate_index i = true ∧ b.tiles.get? (b.cell_pos i) = some t := by
  obtain ⟨o, x, y⟩ := i
  cases o
  case White =>
    simp only [Board.get_tile, Board.get_tile_white, Board.cell_pos]
    rw [if_neg (by simp)]
    by_cases hv : b.validate_index ⟨.White, x, y⟩ = true
    · rw [if_neg (by simp [hv])]
      cases hg : b.tiles.get? (x + y * b.width) <;> simp [hv, hg, index_oob_msg]
    · rw [if_pos (by simp_all)]
      simp [hv]
  case Black =>
    simp only [Board.get_tile, Board.get_tile_black, Board.cell_pos]
    rw [if_neg (by simp)]
    by_cases hv : b.validate_index ⟨.Black, x, y⟩ = true
    · rw [if_neg (by simp [hv])]
      have hxy : x < b.width ∧ y < b.height := (validate_index_iff _ _).mp hv
      simp only [Board.reverse_index, Board.get_tile_white, get_enemy]
      rw [if_neg (by simp)]
      rw [if_neg (by simp [validate_index_iff]; omega)]
      cases hg : b.tiles.get? ((b.width - x - 1) + (b.height - y - 1) * b.width) <;>
        simp [hv, hg, index_oob_msg]
    · rw [if_pos (by simp_all)]
      simp [hv]

/-- `set_tile` succeeds exactly on validated indices whose storage cell
exists, and overwrites that cell. -/
theorem set_tile_ok_iff (b : Board) (i : Index) (tile : Tile) (b2 : Board) :
    b.set_tile i tile = .ok b2 ↔
      b.validate_index i = true ∧ b.cell_pos i < b.tiles.length ∧
        b2 = ⟨b.height, b.width, b.tiles.set (b.cell_pos i) tile⟩ := by
  obtain ⟨o, x, y⟩ := i
  cases o
  case White =>
    simp only [Board.set_tile, Board.set_tile_white, Board.cell_pos]
    rw [if_neg (by simp)]
    by_cases hv : b.validate_index ⟨.White, x, y⟩ = true
    · rw [if_neg (by simp [hv])]
      by_cases hl : x + y * b.width < b.tiles.length
      · rw [if_pos hl]
        constructor
        · intro h
          rw [Except.ok.injEq] at h
          exact ⟨hv, hl, h.symm⟩
        · rintro ⟨-, -, h⟩
          rw [h]
      · rw [if_neg hl]
        simp [hv, hl]
    · rw [if_pos (by simp_all)]
      simp [hv]
  case Black =>
    simp only [Board.set_tile, Board.set_tile_black, Board.cell_pos]
    rw [if_neg (by simp)]
    by_cases hv : b.validate_index ⟨.Black, x, y⟩ = true
    · rw [if_neg (by simp [hv])]
      have hxy : x < b.width ∧ y < b.height := (validate_index_iff _ _).mp hv
      simp only [Board.reverse_index, Board.set_tile_white, get_enemy]
      rw [if_neg (by simp)]
      rw [if_neg (by simp [validate_index_iff]; omega)]
      by_cases hl : (b.width - x - 1) + (b.height - y - 1) * b.width < b.tiles.length
      · rw [if_pos hl]
        constructor
        · intro h
          rw [Except.ok.injEq] at h
          exact ⟨hv, hl, h.symm⟩
        · rintro ⟨-, -, h⟩
          rw [h]
      · rw [if_neg hl]
        simp [hv, hl]
    · rw [if_pos (by simp_all)]
      simp [hv]

/-- Claim C9: with the game already won, move application rejects every
requested move with the game-over error and returns the game unchanged. -/
theorem game_over_rejected (g : Game) (p : Player) (m : Move)
    (hw : g.state = .Won p) :
    g.make_move m =
      (.error "You can not make a move, the game has already ended", g) := by
  simp only [Game.make_move, hw]

/-- Witness for C9: a concrete won game rejects a concrete move. -/
theorem game_over_rejected_witness :
    won_game.state = .Won .White ∧
      won_game.make_move demo_move =
        (.error "You can not make a move, the game has already ended", won_game) :=
  ⟨rfl, game_over_rejected won_game .White demo_move rfl⟩

/-- Claim C4: in a turn state, a requested move whose target matches no
entry of the legal-move set of its source is rejected with the
illegal-move error and the game (board and state) is returned unchanged. -/
theorem illegal_move_rejected (g : Game) (p : Player) (m : Move)
    (avail : List AvailableMove)
    (hs : g.state = .Turn p)
    (ha : g.get_allowed_moves_for m.source = .ok avail)
    (hf : Game.find_move_in_available avail m = none) :
    g.make_move m = (.error "Illegal move", g) := by
  have hc : g.check_move m = .error "Illegal move" := by
    simp only [Game.check_move, hs, ha, hf]
  simp only [Game.make_move, hs, hc]

/-- Witness for C4: the concrete demo game rejects the request to `(0,0)`
and is unchanged. -/
theorem illegal_move_rejected_witness :
    demo_game.state = .Turn .White ∧
      demo_game.get_allowed_moves_for illegal_request.source = .ok demo_avail ∧
      Game.find_move_in_available demo_avail illegal_request = none ∧
      demo_game.make_move illegal_request = (.error "Illegal move", demo_game) :=
  ⟨rfl, by decide, by decide,
    illegal_move_rejected demo_game .White illegal_request demo_avail rfl
      (by decide) (by decide)⟩

/-- Claim C10: the move-matching step never returns a multi-capture: every
move it can select has already passed the filter that drops `MultiCapture`
and `KingMultiCapture` variants. -/
theorem find_move_no_multicapture (avail : List AvailableMove) (m : Move)
    (am : AvailableMove)
    (h : Game.find_move_in_available avail m = some am) :
    (∀ l, am.move_type ≠ .MultiCapture l) ∧
      (∀ l, am.move_type ≠ .KingMultiCapture l) := by
  simp only [Game.find_move_in_available] at h
  have hmem := List.mem_of_find?_eq_some h
  rw [List.mem_filter] at hmem
  have hp := hmem.2
  constructor <;> intro l hl <;> rw [hl] at hp <;> simp at hp

/-- Witness for C10 at a concrete legal-move list. -/
theorem find_move_no_multicapture_witness :
    Game.find_move_in_available demo_avail demo_move =
        some ⟨⟨.White, 1, 2⟩, .Capture ⟨.White, 3, 0⟩ ⟨.White, 2, 1⟩⟩ ∧
      ((∀ l, (⟨⟨.White, 1, 2⟩,
          .Capture ⟨.White, 3, 0⟩ ⟨.White, 2, 1⟩⟩ : AvailableMove).move_type ≠
            .MultiCapture l) ∧
        (∀ l, (⟨⟨.White, 1, 2⟩,
          .Capture ⟨.White, 3, 0⟩ ⟨.White, 2, 1⟩⟩ : AvailableMove).move_type ≠
            .KingMultiCapture l)) :=
  ⟨by decide,
    find_move_no_multicapture demo_avail demo_move
      ⟨⟨.White, 1, 2⟩, .Capture ⟨.White, 3, 0⟩ ⟨.White, 2, 1⟩⟩ (by decide)⟩

/-- `translate` succeeds whenever neither shifted coordinate is negative. -/
theorem translate_some (i : Index) (dx dy : Int)
    (h1 : 0 ≤ (i.x : Int) + dx) (h2 : 0 ≤ (i.y : Int) + dy) :
    i.translate dx dy =
      some ⟨i.orientation, ((i.x : Int) + dx).toNat, ((i.y : Int) + dy).toNat⟩ := by
  rw [translate_eq_some]
  refine ⟨h1, h2, rfl, ?_, ?_⟩ <;> simp <;> omega

/-- A successfully validated `get_tile` implies the index was in bounds. -/
theorem get_tile_ok_validate (b : Board) (i : Index) (t : Tile)
    (h : b.get_tile i = .ok t) : b.validate_index i = true :=
  ((get_tile_ok_iff b i t).mp h).1

/-- On a board whose slice has the constructed length, every validated
index has a readable storage cell. -/
theorem get_tile_of_validate (b : Board) (i : Index)
    (hwf : b.tiles.length = b.height * b.width)
    (hv : b.validate_index i = true) :
    ∃ t, b.get_tile i = .ok t := by
  have hlt : b.cell_pos i < b.tiles.length := by
    rw [hwf]; exact cell_pos_lt b i hv
  cases hq : b.tiles.get? (b.cell_pos i)
  · rw [List.get?_eq_none] at hq; omega
  · exact ⟨_, (get_tile_ok_iff _ _ _).mpr ⟨hv, hq⟩⟩

/-- Claim C7: for an in-bounds, non-empty source and a direction whose
two-step capture target translates successfully and is on the board, the
one-step midpoint also translates successfully and is on the board, and the
unguarded unwraps in `check_capture_move` cannot produce the unwrap panic. -/
theorem capture_midpoint_safe (g : Game) (s : Index) (d : Direction)
    (tile : Tile) (t : Index)
    (hwf : g.board.tiles.length = g.board.height * g.board.width)
    (hgt : g.board.get_tile s = .ok tile)
    (hne : tile ≠ .Empty)
    (htr : capture_target_index s d = some t)
    (hv : g.board.validate_index t = true) :
    (∃ m1, capture_captured_index s d = some m1 ∧
        g.board.validate_index m1 = true) ∧
      g.check_capture_move s d ≠ .error unwrap_fail_msg := by
  have hvs := get_tile_ok_validate _ _ _ hgt
  have hvs2 := (validate_index_iff _ _).mp hvs
  have hv2 := (validate_index_iff _ _).mp hv
  have hmid : ∃ m1, capture_captured_index s d = some m1 ∧
      g.board.validate_index m1 = true := by
    cases d
    case NW =>
      simp only [capture_target_index] at htr
      rw [translate_eq_some] at htr
      obtain ⟨ha, hb, hc, hd2, he⟩ := htr
      refine ⟨⟨s.orientation, ((s.x : Int) + (-1)).toNat, ((s.y : Int) + (-1)).toNat⟩, ?_, ?_⟩
      · simp only [capture_captured_index]
        exact translate_some s (-1) (-1) (by omega) (by omega)
      · rw [validate_index_iff]
        refine ⟨?_, ?_⟩ <;> simp <;> omega
    case NE =>
      simp only [capture_target_index] at htr
      rw [translate_eq_some] at htr
      obtain ⟨ha, hb, hc, hd2, he⟩ := htr
      refine ⟨⟨s.orientation, ((s.x : Int) + 1).toNat, ((s.y : Int) + (-1)).toNat⟩, ?_, ?_⟩
      · simp only [capture_captured_index]
        exact translate_some s 1 (-1) (by omega) (by omega)
      · rw [validate_index_iff]
        refine ⟨?_, ?_⟩ <;> simp <;> omega
    case SE =>
      simp only [capture_target_index] at htr
      rw [translate_eq_some] at htr
      obtain ⟨ha, hb, hc, hd2, he⟩ := htr
      refine ⟨⟨s.orientation, ((s.x : Int) + 1).toNat, ((s.y : Int) + 1).toNat⟩, ?_, ?_⟩
      · simp only [capture_captured_index]
        exact translate_some s 1 1 (by omega) (by omega)
      · rw [validate_index_iff]
        refine ⟨?_, ?_⟩ <;> simp <;> omega
    case SW =>
      simp only [capture_target_index] at htr
      rw [translate_eq_some] at htr
      obtain ⟨ha, hb, hc, hd2, he⟩ := htr
      refine ⟨⟨s.orientation, ((s.x : Int) + (-1)).toNat, ((s.y : Int) + 1).toNat⟩, ?_, ?_⟩
      · simp only [capture_captured_index]
        exact translate_some s (-1) 1 (by omega) (by omega)
      · rw [validate_index_iff]
        refine ⟨?_, ?_⟩ <;> simp <;> omega
  refine ⟨hmid, ?_⟩
  obtain ⟨m1, hm, hvm⟩ := hmid
  obtain ⟨player, hplayer⟩ : ∃ p, get_tile_owner tile = some p := by
    cases tile <;> simp_all [get_tile_owner]
  obtain ⟨tt, hgtt⟩ := get_tile_of_validate g.board t hwf hv
  obtain ⟨ct, hgct⟩ := get_tile_of_validate g.board m1 hwf hvm
  simp only [Game.check_capture_move, hgt, hplayer, htr, hm, hgtt, hgct]
  split
  · simp [unwrap_fail_msg]
  · split
    · simp [unwrap_fail_msg]
    · simp

/-- Witness for C7 at the concrete demo capture position. -/
theorem capture_midpoint_safe_witness :
    demo_game.board.tiles.length = demo_game.board.height * demo_game.board.width ∧
      demo_game.board.get_tile ⟨.White, 1, 2⟩ = .ok .White ∧
      Tile.White ≠ Tile.Empty ∧
      capture_target_index ⟨.White, 1, 2⟩ .NE = some ⟨.White, 3, 0⟩ ∧
      demo_game.board.validate_index ⟨.White, 3, 0⟩ = true ∧
      ((∃ m1, capture_captured_index ⟨.White, 1, 2⟩ .NE = some m1 ∧
          demo_game.board.validate_index m1 = true) ∧
        demo_game.check_capture_move ⟨.White, 1, 2⟩ .NE ≠ .error unwrap_fail_msg) :=
  ⟨by decide, by decide, by decide, by decide, by decide,
    capture_midpoint_safe demo_game ⟨.White, 1, 2⟩ .NE .White ⟨.White, 3, 0⟩
      (by decide) (by decide) (by decide) (by decide) (by decide)⟩

/-- Claim C5 (divergence evidence): a successful capture that removes the
last Black piece leaves the state at `Turn Black`; `make_move` /
`change_turn` never produce a `Won` state. -/
theorem win_not_detected :
    demo_game.make_move demo_move = (.ok (), demo_after) ∧
      demo_after.board.tiles.countP
          (fun t => decide (get_tile_owner t = some Player.Black)) = 0 ∧
      demo_after.state = .Turn .Black ∧
      demo_after.state ≠ .Won .White := by
  refine ⟨by decide, by decide, by decide, by decide⟩

/-- Claim C8 (divergence evidence): for a White king with all four
diagonals empty, the legal-move enumeration is the empty list (the king
branch of `get_allowed_moves_for` is unimplemented), although the adjacent
diagonals are on the board and `Empty`. -/
theorem king_moves_unimplemented :
    king_game.get_allowed_moves_for ⟨.White, 1, 2⟩ = .ok [] ∧
      king_board.get_tile ⟨.White, 1, 2⟩ = .ok .WhiteKing ∧
      king_board.get_tile ⟨.White, 0, 1⟩ = .ok .Empty ∧
      king_board.get_tile ⟨.White, 2, 1⟩ = .ok .Empty ∧
      king_board.get_tile ⟨.White, 0, 3⟩ = .ok .Empty ∧
      king_board.get_tile ⟨.White, 2, 3⟩ = .ok .Empty := by
  refine ⟨by decide, by decide, by decide, by decide, by decide, by decide⟩

/-- Elements of a diagonal-move candidate are simple `Move`s from the
source. -/
theorem mem_man_move_candidate (g : Game) (s : Index) (dx dy : Int)
    (am : AvailableMove) (h : am ∈ man_move_candidate g s dx dy) :
    ∃ i, am = ⟨s, .Move i⟩ := by
  simp only [man_move_candidate] at h
  split at h
  · split at h
    · rw [List.mem_singleton] at h
      exact ⟨_, h⟩
    · simp at h
  · simp at h

/-- A capture candidate holds exactly the successful result of
`check_capture_move`. -/
theorem mem_capture_candidate (g : Game) (s : Index) (d : Direction)
    (am : AvailableMove) :
    am ∈ capture_candidate g s d ↔ g.check_capture_move s d = .ok am := by
  simp only [capture_candidate]
  cases h : g.check_capture_move s d
  · simp
  · simp [eq_comm]

/-- Characterization of a successful `check_capture_move`, assuming the
source tile and its owner are known. -/
theorem check_capture_ok_iff (g : Game) (s : Index) (d : Direction)
    (am : AvailableMove) (tile : Tile) (player : Player)
    (hgt : g.board.get_tile s = .ok tile)
    (hplayer : get_tile_owner tile = some player) :
    g.check_capture_move s d = .ok am ↔
      ∃ t c ct, capture_target_index s d = some t ∧
        g.board.get_tile t = .ok .Empty ∧
        capture_captured_index s d = some c ∧
        g.board.get_tile c = .ok ct ∧
        get_tile_owner ct = some (get_enemy player) ∧
        am = ⟨s, .Capture t c⟩ := by
  simp only [Game.check_capture_move, hgt, hplayer]
  cases htr : capture_target_index s d
  · simp
  case some t =>
    dsimp only
    cases hgtt : g.board.get_tile t
    · dsimp only
      simp [hgtt]
    case ok tt =>
      dsimp only
      by_cases htt : tt = Tile.Empty
      · subst htt
        rw [if_neg (by simp)]
        cases hm : capture_captured_index s d
        · dsimp only
          simp [hgtt]
        · rename_i c
          dsimp only
          cases hgc : g.board.get_tile c
          · dsimp only
            simp [hgtt, hgc]
          · rename_i ct0
            dsimp only
            by_cases how : get_tile_owner ct0 = some (get_enemy player)
            · rw [if_neg (by simp [how])]
              constructor
              · intro h
                rw [Except.ok.injEq] at h
                exact ⟨t, c, ct0, rfl, hgtt, rfl, hgc, how, h.symm⟩
              · rintro ⟨t2, c2, ct2, ht2, he2, hc2, hg2, ho2, ha2⟩
                rw [Option.some_inj] at ht2 hc2
                subst ht2
                subst hc2
                rw [hgc, Except.ok.injEq] at hg2
                subst ha2
                rfl
            · rw [if_pos (by simp [how])]
              constructor
              · intro h
                simp at h
              · rintro ⟨t2, c2, ct2, ht2, he2, hc2, hg2, ho2, ha2⟩
                rw [Option.some_inj] at ht2 hc2
                subst ht2
                subst hc2
                rw [hgc, Except.ok.injEq] at hg2
                subst hg2
                exact absurd ho2 how
      · rw [if_pos (by simp [htt])]
        constructor
        · intro h
          simp at h
        · rintro ⟨t2, c2, ct2, ht2, he2, hc2, hg2, ho2, ha2⟩
          rw [Option.some_inj] at ht2
          subst ht2
          rw [hgtt, Except.ok.injEq] at he2
          exact absurd he2 htt

/-- A successful `check_capture_move` returns a `Capture` from the queried
source. -/
theorem check_capture_source (g : Game) (s : Index) (d : Direction)
    (am : AvailableMove) (h : g.check_capture_move s d = .ok am) :
    ∃ t c, am = ⟨s, .Capture t c⟩ ∧ capture_target_index s d = some t ∧
      capture_captured_index s d = some c := by
  simp only [Game.check_capture_move] at h
  split at h
  · simp at h
  · split at h
    · simp at h
    · split at h
      · simp at h
      · rename_i target_index htr
        split at h
        · simp at h
        · split at h
          · simp at h
          · split at h
            · simp at h
            · rename_i captured_index hm
              split at h
              · simp at h
              · split at h
                · simp at h
                · rw [Except.ok.injEq] at h
                  exact ⟨target_index, captured_index, h.symm, htr, hm⟩

/-- Two directions producing the same two-step target coincide. -/
theorem capture_target_inj (s : Index) (d d2 : Direction) (t : Index)
    (h1 : capture_target_index s d = some t)
    (h2 : capture_target_index s d2 = some t) : d = d2 := by
  cases d <;> cases d2 <;> first
    | rfl
    | (exfalso
       simp only [capture_target_index] at h1 h2
       rw [translate_eq_some] at h1 h2
       obtain ⟨-, -, -, hx1, hy1⟩ := h1
       obtain ⟨-, -, -, hx2, hy2⟩ := h2
       omega)

/-- For a man tile the legal-move list is the two diagonal candidates
followed by the four capture candidates in source order. -/
theorem allowed_moves_man_eq (g : Game) (s : Index) (tile : Tile)
    (hgt : g.board.get_tile s = .ok tile)
    (hman : tile = .White ∨ tile = .Black) :
    g.get_allowed_moves_for s =
      .ok (man_move_candidate g s (-1) (-1) ++ man_move_candidate g s 1 (-1) ++
        capture_candidate g s .NE ++ capture_candidate g s .NW ++
        capture_candidate g s .SE ++ capture_candidate g s .SW) := by
  rcases hman with h | h <;> subst h <;>
    simp [Game.get_allowed_moves_for, hgt]

/-- Claim C2: for an in-bounds man source, the legal-move enumeration
offers a capture in a given diagonal direction exactly when the two-step
target is on the board and `Empty` and the one-step midpoint holds a tile
owned by the enemy of the source piece. -/
theorem man_capture_iff (g : Game) (s : Index) (d : Direction)
    (tile : Tile) (player : Player)
    (hgt : g.board.get_tile s = .ok tile)
    (hman : tile = .White ∨ tile = .Black)
    (hplayer : get_tile_owner tile = some player) :
    (∃ l, g.get_allowed_moves_for s = .ok l ∧
        ∃ t c, capture_target_index s d = some t ∧
          capture_captured_index s d = some c ∧
          (⟨s, .Capture t c⟩ : AvailableMove) ∈ l) ↔
      (∃ t, capture_target_index s d = some t ∧
          g.board.get_tile t = .ok .Empty ∧
          ∃ c ct, capture_captured_index s d = some c ∧
            g.board.get_tile c = .ok ct ∧
            get_tile_owner ct = some (get_enemy player)) := by
  have hL := allowed_moves_man_eq g s tile hgt hman
  constructor
  · rintro ⟨l, hl, t, c, ht, hc, hmem⟩
    rw [hL, Except.ok.injEq] at hl
    subst hl
    simp only [List.mem_append] at hmem
    have hcap : ∃ d2, g.check_capture_move s d2 =
        .ok (⟨s, .Capture t c⟩ : AvailableMove) := by
      rcases hmem with ((((h | h) | h) | h) | h) | h
      · obtain ⟨i, hi⟩ := mem_man_move_candidate g s (-1) (-1) _ h
        simp at hi
      · obtain ⟨i, hi⟩ := mem_man_move_candidate g s 1 (-1) _ h
        simp at hi
      · exact ⟨.NE, (mem_capture_candidate g s .NE _).mp h⟩
      · exact ⟨.NW, (mem_capture_candidate g s .NW _).mp h⟩
      · exact ⟨.SE, (mem_capture_candidate g s .SE _).mp h⟩
      · exact ⟨.SW, (mem_capture_candidate g s .SW _).mp h⟩
    obtain ⟨d2, hok⟩ := hcap
    rw [check_capture_ok_iff g s d2 _ tile player hgt hplayer] at hok
    obtain ⟨t2, c2, ct2, ht2, he2, hc2, hg2, ho2, ha2⟩ := hok
    rw [AvailableMove.mk.injEq, MoveType.Capture.injEq] at ha2
    obtain ⟨-, h1, h2⟩ := ha2
    subst h1
    subst h2
    have hd : d2 = d := capture_target_inj s d2 d t ht2 ht
    subst hd
    exact ⟨t, ht2, he2, c, ct2, hc2, hg2, ho2⟩
  · rintro ⟨t, ht, hemp, c, ct, hc, hgc, how⟩
    have hok : g.check_capture_move s d = .ok (⟨s, .Capture t c⟩ : AvailableMove) :=
      (check_capture_ok_iff g s d _ tile player hgt hplayer).mpr
        ⟨t, c, ct, ht, hemp, hc, hgc, how, rfl⟩
    refine ⟨_, hL, t, c, ht, hc, ?_⟩
    have hmem : (⟨s, .Capture t c⟩ : AvailableMove) ∈ capture_candidate g s d :=
      (mem_capture_candidate g s d _).mpr hok
    cases d <;> simp only [List.mem_append] <;> tauto

/-- Witness for C2: the demo position offers the NE capture, matching the
enemy-midpoint and empty-target conditions there. -/
theorem man_capture_iff_witness :
    demo_game.board.get_tile ⟨.White, 1, 2⟩ = .ok .White ∧
      (Tile.White = Tile.White ∨ Tile.White = Tile.Black) ∧
      get_tile_owner .White = some .White ∧
      ((∃ l, demo_game.get_allowed_moves_for ⟨.White, 1, 2⟩ = .ok l ∧
          ∃ t c, capture_target_index ⟨.White, 1, 2⟩ .NE = some t ∧
            capture_captured_index ⟨.White, 1, 2⟩ .NE = some c ∧
            (⟨⟨.White, 1, 2⟩, .Capture t c⟩ : AvailableMove) ∈ l) ↔
        (∃ t, capture_target_index ⟨.White, 1, 2⟩ .NE = some t ∧
            demo_game.board.get_tile t = .ok .Empty ∧
            ∃ c ct, capture_captured_index ⟨.White, 1, 2⟩ .NE = some c ∧
              demo_game.board.get_tile c = .ok ct ∧
              get_tile_owner ct = some (get_enemy .White))) :=
  ⟨by decide, Or.inl rfl, by decide,
    man_capture_iff demo_game ⟨.White, 1, 2⟩ .NE .White .White
      (by decide) (Or.inl rfl) (by decide)⟩

/-- Eliminates a successful `check_move` into its three stages. -/
theorem check_move_ok_elim (g : Game) (m : Move) (gm : AvailableMove)
    (h : g.check_move m = .ok gm) :
    ∃ p avail, g.state = .Turn p ∧
      g.get_allowed_moves_for m.source = .ok avail ∧
      Game.find_move_in_available avail m = some gm := by
  simp only [Game.check_move] at h
  cases hs : g.state
  case Won p =>
    rw [hs] at h
    simp at h
  case Turn p =>
    rw [hs] at h
    dsimp only at h
    cases ha : g.get_allowed_moves_for m.source
    case error msg =>
      rw [ha] at h
      simp at h
    case ok avail =>
      rw [ha] at h
      dsimp only at h
      cases hf : Game.find_move_in_available avail m
      case none =>
        rw [hf] at h
        simp at h
      case some am2 =>
        rw [hf] at h
        dsimp only at h
        rw [Except.ok.injEq] at h
        subst h
        exact ⟨p, avail, rfl, rfl, hf⟩

/-- A matched capture move comes from the candidate list and its stored
target index equals the requested target. -/
theorem find_move_capture_target (avail : List AvailableMove) (m : Move)
    (gm : AvailableMove) (t c : Index)
    (hf : Game.find_move_in_available avail m = some gm)
    (hcap : gm.move_type = .Capture t c) :
    gm ∈ avail ∧ t = m.target := by
  simp only [Game.find_move_in_available] at hf
  have hmem := List.mem_of_find?_eq_some hf
  rw [List.mem_filter] at hmem
  have hpred := List.find?_some hf
  refine ⟨hmem.1, ?_⟩
  simp only [hcap] at hpred
  simpa using hpred

/-- A successful legal-move query implies a non-empty source tile. -/
theorem allowed_ok_nonempty (g : Game) (s : Index) (l : List AvailableMove)
    (hl : g.get_allowed_moves_for s = .ok l) :
    ∃ pawn, g.board.get_tile s = .ok pawn ∧ pawn ≠ .Empty := by
  simp only [Game.get_allowed_moves_for] at hl
  cases hgt : g.board.get_tile s
  case error msg =>
    rw [hgt] at hl
    simp at hl
  case ok pawn =>
    rw [hgt] at hl
    dsimp only at hl
    by_cases hemp : pawn = Tile.Empty
    · rw [if_pos hemp] at hl
      simp at hl
    · exact ⟨pawn, rfl, hemp⟩

/-- A capture entry of the legal-move list originates from a successful
`check_capture_move` in some direction. -/
theorem allowed_capture_origin (g : Game) (s : Index) (gm : AvailableMove)
    (t c : Index) (l : List AvailableMove)
    (hl : g.get_allowed_moves_for s = .ok l)
    (hmem : gm ∈ l)
    (hcap : gm.move_type = .Capture t c) :
    ∃ d, g.check_capture_move s d = .ok gm := by
  have hl0 := hl
  simp only [Game.get_allowed_moves_for] at hl0
  cases hgt : g.board.get_tile s
  case error msg =>
    rw [hgt] at hl0
    simp at hl0
  case ok pawn =>
    rw [hgt] at hl0
    dsimp only at hl0
    by_cases hemp : pawn = Tile.Empty
    · rw [if_pos hemp] at hl0
      simp at hl0
    · rw [if_neg hemp] at hl0
      cases pawn
      · exact absurd rfl hemp
      ·
        dsimp only at hl0
        rw [Except.ok.injEq] at hl0
        subst hl0
        simp only [List.mem_append] at hmem
        rcases hmem with ((((h | h) | h) | h) | h) | h
        · obtain ⟨i, hi⟩ := mem_man_move_candidate g s (-1) (-1) _ h
          rw [hi] at hcap
          simp at hcap
        · obtain ⟨i, hi⟩ := mem_man_move_candidate g s 1 (-1) _ h
          rw [hi] at hcap
          simp at hcap
        · exact ⟨.NE, (mem_capture_candidate _ _ _ _).mp h⟩
        · exact ⟨.NW, (mem_capture_candidate _ _ _ _).mp h⟩
        · exact ⟨.SE, (mem_capture_candidate _ _ _ _).mp h⟩
        · exact ⟨.SW, (mem_capture_candidate _ _ _ _).mp h⟩
      ·
        dsimp only at hl0
        rw [Except.ok.injEq] at hl0
        subst hl0
        simp only [List.mem_append] at hmem
        rcases hmem with ((((h | h) | h) | h) | h) | h
        · obtain ⟨i, hi⟩ := mem_man_move_candidate g s (-1) (-1) _ h
          rw [hi] at hcap
          simp at hcap
        · obtain ⟨i, hi⟩ := mem_man_move_candidate g s 1 (-1) _ h
          rw [hi] at hcap
          simp at hcap
        · exact ⟨.NE, (mem_capture_candidate _ _ _ _).mp h⟩
        · exact ⟨.NW, (mem_capture_candidate _ _ _ _).mp h⟩
        · exact ⟨.SE, (mem_capture_candidate _ _ _ _).mp h⟩
        · exact ⟨.SW, (mem_capture_candidate _ _ _ _).mp h⟩
      ·
        dsimp only at hl0
        rw [Except.ok.injEq] at hl0
        subst hl0
        simp at hmem
      ·
        dsimp only at hl0
        rw [Except.ok.injEq] at hl0
        subst hl0
        simp at hmem

/-- Updating the tile slice changes neither the storage position nor the
bounds check of an index. -/
theorem cell_pos_update (b : Board) (tl : List Tile) (i : Index) :
    (⟨b.height, b.width, tl⟩ : Board).cell_pos i = b.cell_pos i := rfl

/-- Updating the tile slice does not change index validation. -/
theorem validate_update (b : Board) (tl : List Tile) (i : Index) :
    (⟨b.height, b.width, tl⟩ : Board).validate_index i = b.validate_index i := rfl

/-- The source, two-step target and midpoint of a capture share the
orientation and are pairwise distinct indices. -/
theorem capture_geometry (s : Index) (d : Direction) (t c : Index)
    (ht : capture_target_index s d = some t)
    (hc : capture_captured_index s d = some c) :
    t.orientation = s.orientation ∧ c.orientation = s.orientation ∧
      s ≠ t ∧ s ≠ c ∧ t ≠ c := by
  cases d <;>
    (simp only [capture_target_index, capture_captured_index] at ht hc
     rw [translate_eq_some] at ht hc
     obtain ⟨-, -, hto, htx, hty⟩ := ht
     obtain ⟨-, -, hco, hcx, hcy⟩ := hc
     refine ⟨hto, hco, ?_, ?_, ?_⟩
     · intro he
       have hx : s.x = t.x := by rw [he]
       omega
     · intro he
       have hx : s.x = c.x := by rw [he]
       omega
     · intro he
       have hx : t.x = c.x := by rw [he]
       omega)

/-- Claim C3: a successful `make_move` with a single-capture move resolved
from the legal-move set leaves the source square `Empty`, puts the moved
piece on the landing square, and empties the captured midpoint. -/
theorem capture_execution_correct (g : Game) (bm : Move) (gm : AvailableMove)
    (t c : Index) (pawn : Tile) (g2 : Game)
    (hwf : g.board.tiles.length = g.board.height * g.board.width)
    (hcheck : g.check_move bm = .ok gm)
    (hcap : gm.move_type = .Capture t c)
    (hpawn : g.board.get_tile gm.source = .ok pawn)
    (hmm2 : g.make_move bm = (.ok (), g2)) :
    g2.board.get_tile bm.source = .ok .Empty ∧
      g2.board.get_tile bm.target = .ok pawn ∧
      g2.board.get_tile c = .ok .Empty := by
  obtain ⟨p, avail, hs, ha, hf⟩ := check_move_ok_elim g bm gm hcheck
  obtain ⟨hmem, htm⟩ := find_move_capture_target avail bm gm t c hf hcap
  subst htm
  obtain ⟨d, hok⟩ := allowed_capture_origin g bm.source gm bm.target c avail ha hmem hcap
  obtain ⟨t2, c2, hgm, htr2, hm2⟩ := check_capture_source g bm.source d gm hok
  subst hgm
  dsimp only at hcap
  rw [MoveType.Capture.injEq] at hcap
  obtain ⟨he1, he2⟩ := hcap
  subst he1
  subst he2
  have hpawn2 : g.board.get_tile bm.source = .ok pawn := hpawn
  obtain ⟨pawn3, hgt3, hne3⟩ := allowed_ok_nonempty g bm.source avail ha
  rw [hpawn2, Except.ok.injEq] at hgt3
  subst hgt3
  obtain ⟨player, hplayer⟩ : ∃ pl, get_tile_owner pawn = some pl := by
    cases pawn <;> simp_all [get_tile_owner]
  rw [check_capture_ok_iff g bm.source d _ pawn player hpawn2 hplayer] at hok
  obtain ⟨t3, c3, ct, htr3, hempT, hm3, hgc3, how3, heq3⟩ := hok
  rw [AvailableMove.mk.injEq, MoveType.Capture.injEq] at heq3
  obtain ⟨-, h31, h32⟩ := heq3
  subst h31
  subst h32
  have hvS : g.board.validate_index bm.source = true :=
    get_tile_ok_validate _ _ _ hpawn2
  have hvT : g.board.validate_index bm.target = true :=
    get_tile_ok_validate _ _ _ hempT
  have hvC : g.board.validate_index c2 = true :=
    get_tile_ok_validate _ _ _ hgc3
  obtain ⟨hoT, hoC, hneST, hneSC, hneTC⟩ :=
    capture_geometry bm.source d bm.target c2 htr3 hm3
  have hpST : g.board.cell_pos bm.source ≠ g.board.cell_pos bm.target :=
    fun hp => hneST (cell_pos_inj g.board _ _ hvS hvT hoT.symm hp)
  have hpSC : g.board.cell_pos bm.source ≠ g.board.cell_pos c2 :=
    fun hp => hneSC (cell_pos_inj g.board _ _ hvS hvC hoC.symm hp)
  have hpTC : g.board.cell_pos bm.target ≠ g.board.cell_pos c2 :=
    fun hp => hneTC (cell_pos_inj g.board _ _ hvT hvC (hoT.trans hoC.symm) hp)
  have hlenS : g.board.cell_pos bm.source < g.board.tiles.length := by
    rw [hwf]
    exact cell_pos_lt _ _ hvS
  have hlenT : g.board.cell_pos bm.target < g.board.tiles.length := by
    rw [hwf]
    exact cell_pos_lt _ _ hvT
  have hlenC : g.board.cell_pos c2 < g.board.tiles.length := by
    rw [hwf]
    exact cell_pos_lt _ _ hvC
  have hset1 : g.board.set_tile bm.source Tile.Empty =
      .ok ⟨g.board.height, g.board.width,
        g.board.tiles.set (g.board.cell_pos bm.source) Tile.Empty⟩ :=
    (set_tile_ok_iff _ _ _ _).mpr ⟨hvS, hlenS, rfl⟩
  have hset2 : (⟨g.board.height, g.board.width,
        g.board.tiles.set (g.board.cell_pos bm.source) Tile.Empty⟩ :
          Board).set_tile bm.target pawn =
      .ok ⟨g.board.height, g.board.width,
        (g.board.tiles.set (g.board.cell_pos bm.source) Tile.Empty).set
          (g.board.cell_pos bm.target) pawn⟩ := by
    refine (set_tile_ok_iff _ _ _ _).mpr ⟨hvT, ?_, ?_⟩
    · show g.board.cell_pos bm.target <
        (g.board.tiles.set (g.board.cell_pos bm.source) Tile.Empty).length
      rw [List.length_set]
      exact hlenT
    · rfl
  have hset3 : (⟨g.board.height, g.board.width,
        (g.board.tiles.set (g.board.cell_pos bm.source) Tile.Empty).set
          (g.board.cell_pos bm.target) pawn⟩ : Board).set_tile c2 Tile.Empty =
      .ok ⟨g.board.height, g.board.width,
        ((g.board.tiles.set (g.board.cell_pos bm.source) Tile.Empty).set
          (g.board.cell_pos bm.target) pawn).set (g.board.cell_pos c2) Tile.Empty⟩ := by
    refine (set_tile_ok_iff _ _ _ _).mpr ⟨hvC, ?_, ?_⟩
    · show g.board.cell_pos c2 <
        ((g.board.tiles.set (g.board.cell_pos bm.source) Tile.Empty).set
          (g.board.cell_pos bm.target) pawn).length
      rw [List.length_set, List.length_set]
      exact hlenC
    · rfl
  simp only [Game.make_move, hs, hcheck, hpawn2, hset1, hset2, hset3,
    Game.change_turn] at hmm2
  rw [Prod.mk.injEq] at hmm2
  obtain ⟨-, hg2⟩ := hmm2
  subst hg2
  have hget : ∀ i : Index, g.board.validate_index i = true →
      ∀ tl : Tile, (((g.board.tiles.set (g.board.cell_pos bm.source)
          Tile.Empty).set (g.board.cell_pos bm.target) pawn).set
            (g.board.cell_pos c2) Tile.Empty).get? (g.board.cell_pos i) = some tl →
      (⟨g.board.height, g.board.width,
        ((g.board.tiles.set (g.board.cell_pos bm.source) Tile.Empty).set
          (g.board.cell_pos bm.target) pawn).set (g.board.cell_pos c2)
            Tile.Empty⟩ : Board).get_tile i = .ok tl := by
    intro i hvi tl hq
    exact (get_tile_ok_iff _ _ _).mpr ⟨hvi, hq⟩
  refine ⟨hget bm.source hvS Tile.Empty ?_, hget bm.target hvT pawn ?_,
    hget c2 hvC Tile.Empty ?_⟩
  · rw [List.get?_eq_getElem?, List.getElem?_set_ne (by omega),
      List.getElem?_set_ne (by omega), List.getElem?_set_eq_of_lt _ hlenS]
  · rw [List.get?_eq_getElem?, List.getElem?_set_ne (by omega),
      List.getElem?_set_eq_of_lt]
    rw [List.length_set]
    exact hlenT
  · rw [List.get?_eq_getElem?, List.getElem?_set_eq_of_lt]
    rw [List.length_set, List.length_set]
    exact hlenC

/-- Witness for C3: executing the concrete demo capture empties the source
and midpoint and lands the White man on the target. -/
theorem capture_execution_correct_witness :
    demo_game.board.tiles.length =
        demo_game.board.height * demo_game.board.width ∧
      demo_game.check_move demo_move =
        .ok ⟨⟨.White, 1, 2⟩, .Capture ⟨.White, 3, 0⟩ ⟨.White, 2, 1⟩⟩ ∧
      demo_game.board.get_tile (⟨⟨.White, 1, 2⟩,
        .Capture ⟨.White, 3, 0⟩ ⟨.White, 2, 1⟩⟩ : AvailableMove).source =
          .ok .White ∧
      demo_game.make_move demo_move = (.ok (), demo_after) ∧
      (demo_after.board.get_tile demo_move.source = .ok .Empty ∧
        demo_after.board.get_tile demo_move.target = .ok .White ∧
        demo_after.board.get_tile ⟨.White, 2, 1⟩ = .ok .Empty) :=
  ⟨by decide, by decide, by decide, by decide,
    capture_execution_correct demo_game demo_move
      ⟨⟨.White, 1, 2⟩, .Capture ⟨.White, 3, 0⟩ ⟨.White, 2, 1⟩⟩
      ⟨.White, 3, 0⟩ ⟨.White, 2, 1⟩ .White demo_after
      (by decide) (by decide) rfl (by decide) (by decide)⟩

/-- List sums over `List.range` agree with `Finset.range` sums. -/
theorem list_sum_map_range (f : Nat → Nat) (n : Nat) :
    ((List.range n).map f).sum = ∑ y in Finset.range n, f y := by
  induction n with
  | zero => simp
  | succ n ih =>
    rw [List.range_succ, List.map_append, List.sum_append, Finset.sum_range_succ, ih]
    simp

/-- Counting over the row-major grid of `Board::new` row by row. -/
theorem grid_countP (p : Tile → Bool) (hgt w n : Nat) :
    ((List.range (n * w)).map (fun i => init_tile hgt (i % w) (i / w))).countP p =
      ∑ y in Finset.range n,
        ((List.range w).map (fun x => init_tile hgt x y)).countP p := by
  induction n with
  | zero => simp
  | succ n ih =>
    have h1 : (n + 1) * w = n * w + w := by ring
    rw [h1, List.range_add, List.map_append, List.countP_append, ih,
      Finset.sum_range_succ]
    congr 1
    rw [List.map_map, List.countP_map, List.countP_map]
    refine List.countP_congr ?_
    intro x hx
    rw [List.mem_range] at hx
    have hw : 0 < w := by omega
    have h2 : (n * w + x) % w = x := by
      rw [Nat.add_comm, Nat.add_mul_mod_self_right, Nat.mod_eq_of_lt hx]
    have h3 : (n * w + x) / w = n := by
      rw [Nat.mul_comm n w, Nat.mul_add_div hw, Nat.div_eq_of_lt hx]
      omega
    simp only [Function.comp]
    rw [h2, h3]

/-- Each full even-width row holds exactly half dark squares. -/
theorem count_dark_row (j y : Nat) :
    (List.range (2 * j)).countP (fun x => decide ((x + y) % 2 = 1)) = j := by
  induction j with
  | zero => simp
  | succ j ih =>
    have h1 : 2 * (j + 1) = (2 * j + 1) + 1 := by ring
    rw [h1, List.range_succ, List.countP_append, List.range_succ,
      List.countP_append, ih]
    simp only [List.countP_cons, List.countP_nil, decide_eq_true_eq]
    split_ifs <;> omega

/-- Per-row count of Black-owned tiles in the constructed layout. -/
theorem row_black_count (m j y : Nat) :
    ((List.range (2 * j)).map (fun x => init_tile (2 * m) x y)).countP
        (fun t => decide (get_tile_owner t = some Player.Black)) =
      if y < m - 1 then j else 0 := by
  rw [List.countP_map]
  have hm2 : 2 * m / 2 = m := by omega
  by_cases hmid : y = m ∨ y = m - 1
  · have hny : ¬ (y < m - 1) := by rcases hmid with h | h <;> omega
    rw [if_neg hny]
    refine List.countP_eq_zero.mpr ?_
    intro a ha
    simp only [Function.comp, init_tile, hm2]
    rw [if_pos hmid]
    simp [get_tile_owner]
  · push_neg at hmid
    by_cases h2 : y < m
    · have hlt : y < m - 1 := by omega
      rw [if_pos hlt]
      have hcongr : ∀ x ∈ List.range (2 * j),
          ((fun t => decide (get_tile_owner t = some Player.Black)) ∘
            (fun x => init_tile (2 * m) x y)) x = true ↔
          (fun x => decide ((x + y) % 2 = 1)) x = true := by
        intro x hx
        simp only [Function.comp, decide_eq_true_eq, init_tile, hm2]
        rw [if_neg (by push_neg; exact hmid)]
        by_cases hp : (x + y) % 2 = 1
        · rw [if_pos hp, if_pos h2]
          simp [get_tile_owner, hp]
        · rw [if_neg hp]
          simp [get_tile_owner, hp]
      rw [List.countP_congr hcongr, count_dark_row]
    · rw [if_neg (by omega)]
      refine List.countP_eq_zero.mpr ?_
      intro a ha
      simp only [Function.comp, init_tile, hm2]
      rw [if_neg (by push_neg; exact hmid)]
      by_cases hp : (a + y) % 2 = 1
      · rw [if_pos hp, if_neg h2]
        simp [get_tile_owner]
      · rw [if_neg hp]
        simp [get_tile_owner]

/-- Per-row count of White-owned tiles in the constructed layout. -/
theorem row_white_count (m j y : Nat) :
    ((List.range (2 * j)).map (fun x => init_tile (2 * m) x y)).countP
        (fun t => decide (get_tile_owner t = some Player.White)) =
      if m < y then j else 0 := by
  rw [List.countP_map]
  have hm2 : 2 * m / 2 = m := by omega
  by_cases hmid : y = m ∨ y = m - 1
  · have hny : ¬ (m < y) := by rcases hmid with h | h <;> omega
    rw [if_neg hny]
    refine List.countP_eq_zero.mpr ?_
    intro a ha
    simp only [Function.comp, init_tile, hm2]
    rw [if_pos hmid]
    simp [get_tile_owner]
  · push_neg at hmid
    by_cases h2 : m < y
    · rw [if_pos h2]
      have hcongr : ∀ x ∈ List.range (2 * j),
          ((fun t => decide (get_tile_owner t = some Player.White)) ∘
            (fun x => init_tile (2 * m) x y)) x = true ↔
          (fun x => decide ((x + y) % 2 = 1)) x = true := by
        intro x hx
        simp only [Function.comp, decide_eq_true_eq, init_tile, hm2]
        rw [if_neg (by push_neg; exact hmid)]
        by_cases hp : (x + y) % 2 = 1
        · rw [if_pos hp, if_neg (by omega)]
          simp [get_tile_owner, hp]
        · rw [if_neg hp]
          simp [get_tile_owner, hp]
      rw [List.countP_congr hcongr, count_dark_row]
    · rw [if_neg h2]
      refine List.countP_eq_zero.mpr ?_
      intro a ha
      simp only [Function.comp, init_tile, hm2]
      rw [if_neg (by push_neg; exact hmid)]
      by_cases hp : (a + y) % 2 = 1
      · rw [if_pos hp, if_pos (by omega)]
        simp [get_tile_owner]
      · rw [if_neg hp]
        simp [get_tile_owner]

/-- Every non-empty tile is owned by exactly one of the two players. -/
theorem countP_owner_split (l : List Tile) :
    l.countP (fun t => decide (t ≠ Tile.Empty)) =
      l.countP (fun t => decide (get_tile_owner t = some Player.White)) +
        l.countP (fun t => decide (get_tile_owner t = some Player.Black)) := by
  induction l with
  | nil => simp
  | cons hd tl ih =>
    simp only [List.countP_cons]
    rw [ih]
    cases hd <;> simp [get_tile_owner] <;> omega

/-- Sum of a threshold indicator over an initial segment. -/
theorem sum_ite_lt (n k c : Nat) (h : k ≤ n) :
    (∑ y in Finset.range n, if y < k then c else 0) = k * c := by
  rw [← Finset.sum_filter]
  have he : (Finset.range n).filter (fun y => y < k) = Finset.range k := by
    ext a
    simp only [Finset.mem_filter, Finset.mem_range]
    omega
  rw [he, Finset.sum_const, smul_eq_mul, Finset.card_range]

/-- Sum of a strict-above indicator over an initial segment. -/
theorem sum_ite_gt (n k c : Nat) :
    (∑ y in Finset.range n, if k < y then c else 0) = (n - (k + 1)) * c := by
  rw [← Finset.sum_filter]
  have he : (Finset.range n).filter (fun y => k < y) = Finset.Ico (k + 1) n := by
    ext a
    simp only [Finset.mem_filter, Finset.mem_range, Finset.mem_Ico]
    omega
  rw [he, Finset.sum_const, smul_eq_mul, Nat.card_Ico]

/-- Reading any in-bounds cell of the freshly constructed board yields the
per-cell layout value. -/
theorem new_tiles_get (hgt w x y : Nat) (hx : x < w) (hy : y < hgt) :
    (Board.new hgt w).tiles.get? (x + y * w) = some (init_tile hgt x y) := by
  simp only [Board.new]
  rw [List.get?_eq_getElem?, List.getElem?_map,
    List.getElem?_range (rowmajor_lt w hgt x y hx hy)]
  have h1 : (x + y * w) % w = x := by
    rw [Nat.add_mul_mod_self_right, Nat.mod_eq_of_lt hx]
  have h2 : (x + y * w) / w = y := by
    rw [Nat.add_mul_div_right _ _ (by omega : 0 < w), Nat.div_eq_of_lt hx]
    omega
  rw [Option.map_some']
  rw [h1, h2]

/-- Claim C6: for even dimensions the constructed board holds exactly
`(height - 2) * width / 2` pieces, split equally between the players, with
the two middle rows and all light squares `Empty`. -/
theorem initial_board_layout (h w : Nat) (hh : h % 2 = 0) (hw : w % 2 = 0) :
    (Board.new h w).tiles.countP (fun t => decide (t ≠ Tile.Empty)) =
        (h - 2) * w / 2 ∧
      (Board.new h w).tiles.countP
          (fun t => decide (get_tile_owner t = some Player.White)) =
        (Board.new h w).tiles.countP
          (fun t => decide (get_tile_owner t = some Player.Black)) ∧
      (∀ x y, x < w → y < h → (y = h / 2 ∨ y = h / 2 - 1) →
        (Board.new h w).get_tile ⟨.White, x, y⟩ = .ok .Empty) ∧
      (∀ x y, x < w → y < h → (x + y) % 2 = 0 →
        (Board.new h w).get_tile ⟨.White, x, y⟩ = .ok .Empty) := by
  obtain ⟨m, rfl⟩ : ∃ m, h = 2 * m := ⟨h / 2, by omega⟩
  obtain ⟨j, rfl⟩ : ∃ j, w = 2 * j := ⟨w / 2, by omega⟩
  have hB : (Board.new (2 * m) (2 * j)).tiles.countP
      (fun t => decide (get_tile_owner t = some Player.Black)) = (m - 1) * j := by
    simp only [Board.new]
    rw [grid_countP]
    rw [Finset.sum_congr rfl (fun y hy2 => row_black_count m j y)]
    rw [sum_ite_lt (2 * m) (m - 1) j (by omega)]
  have hW : (Board.new (2 * m) (2 * j)).tiles.countP
      (fun t => decide (get_tile_owner t = some Player.White)) = (m - 1) * j := by
    simp only [Board.new]
    rw [grid_countP]
    rw [Finset.sum_congr rfl (fun y hy2 => row_white_count m j y)]
    rw [sum_ite_gt (2 * m) m j]
    congr 1
    omega
  refine ⟨?_, ?_, ?_, ?_⟩
  · rw [countP_owner_split, hW, hB]
    have h2 : 2 * m - 2 = 2 * (m - 1) := by omega
    rw [h2, Nat.mul_assoc, Nat.mul_div_cancel_left _ (by norm_num : 0 < 2)]
    ring
  · rw [hW, hB]
  · intro x y hx hy hmid
    have hinit : init_tile (2 * m) x y = Tile.Empty := by
      unfold init_tile
      rw [if_pos hmid]
    have hq := new_tiles_get (2 * m) (2 * j) x y hx hy
    rw [hinit] at hq
    refine (get_tile_ok_iff _ _ _).mpr ⟨?_, hq⟩
    rw [validate_index_iff]
    exact ⟨hx, hy⟩
  · intro x y hx hy hpar
    have hinit : init_tile (2 * m) x y = Tile.Empty := by
      unfold init_tile
      by_cases hmid : y = 2 * m / 2 ∨ y = 2 * m / 2 - 1
      · rw [if_pos hmid]
      · rw [if_neg hmid, if_neg (by omega)]
    have hq := new_tiles_get (2 * m) (2 * j) x y hx hy
    rw [hinit] at hq
    refine (get_tile_ok_iff _ _ _).mpr ⟨?_, hq⟩
    rw [validate_index_iff]
    exact ⟨hx, hy⟩

/-- Witness for C6 on the 4 by 4 board. -/
theorem initial_board_layout_witness :
    (4 : Nat) % 2 = 0 ∧
      ((Board.new 4 4).tiles.countP (fun t => decide (t ≠ Tile.Empty)) =
          (4 - 2) * 4 / 2 ∧
        (Board.new 4 4).tiles.countP
            (fun t => decide (get_tile_owner t = some Player.White)) =
          (Board.new 4 4).tiles.countP
            (fun t => decide (get_tile_owner t = some Player.Black)) ∧
        (∀ x y, x < 4 → y < 4 → (y = 4 / 2 ∨ y = 4 / 2 - 1) →
          (Board.new 4 4).get_tile ⟨.White, x, y⟩ = .ok .Empty) ∧
        (∀ x y, x < 4 → y < 4 → (x + y) % 2 = 0 →
          (Board.new 4 4).get_tile ⟨.White, x, y⟩ = .ok .Empty)) :=
  ⟨rfl, initial_board_layout 4 4 rfl rfl⟩
